import Mathlib

/-!
Verification development for the prng3d streaming generation and
presentation pipeline.

The Rust sources are shallowly embedded:
* machine integers (`i64`, `usize`, `u32`) are modelled as `Int`/`Nat` with
  explicit two's-complement wrapping where the source can overflow
  (release-mode semantics);
* `f64`/`f32` data values are modelled as exact rationals `ℚ`; the one place
  where the bit-level behaviour of `f32` arithmetic matters (the adaptive
  batch-size update, which multiplies by the `f32` literals `1.2` / `0.8`
  and truncates) is modelled exactly, with round-to-nearest-even at 24-bit
  precision;
* the embedded aelys evaluator is external to the repository and is modelled
  as a black box: an environment `AelysEnv` providing `new_vm`,
  `run_with_vm` and `get_function`, and callable functions that thread a VM
  state `σ` (mirroring `&mut VM`) and return either a value or an error
  string;
* stateful worker loops become explicit step functions over a worker-state
  record, consuming per-iteration oracle inputs (drained commands, the pause
  flag read, the bounds snapshot, the measured batch latency).
-/

namespace Prng3d

/-! ### Model of aelys values and the evaluator interface (external, §6) -/

/-- Model of `aelys::Value` restricted to the cases the pipeline
distinguishes: integers, floats (exact rationals in the model) and a
catch-all for every other runtime value. -/
inductive AelysValue where
  | int : Int → AelysValue
  | float : ℚ → AelysValue
  | other : AelysValue
deriving DecidableEq

/-- Model of `Value::as_int`: yields the integer payload, nothing otherwise. -/
def as_int : AelysValue → Option Int
  | .int i => some i
  | _ => none

/-- Model of `Value::as_float`: yields the float payload, nothing otherwise. -/
def as_float : AelysValue → Option ℚ
  | .float q => some q
  | _ => none

/-- Model of `aelys::CallableFunction`: a declared arity and a call that
mutates the VM (state `σ` threaded through) and returns a value or an error
message, mirroring `CallableFunction::call(&mut vm, args)`. -/
structure AelysFunc (σ : Type) where
  arity : Nat
  call : σ → List AelysValue → σ × Except String AelysValue

/-- Model of the external evaluator API consumed by both workers:
`new_vm`, `run_with_vm` (which mutates the VM) and `get_function`. -/
structure AelysEnv (σ : Type) where
  new_vm : Except String σ
  run_with_vm : σ → String → String → σ × Except String Unit
  get_function : σ → String → Except String (AelysFunc σ)

deriving instance DecidableEq for Except

/-! ### i64 arithmetic model (release-mode two's-complement wrapping) -/

def I64_MIN : Int := -(2 ^ 63)

/-- Wrap an integer into the `i64` range, the behaviour of overflowing
`i64` arithmetic in release builds. -/
def i64_wrap (x : Int) : Int := (x + 2 ^ 63) % 2 ^ 64 - 2 ^ 63

/-- Model of `i64::abs` in release builds: `i64::MIN.abs()` wraps to
`i64::MIN` itself (documented overflow), every other value maps to its
mathematical absolute value. -/
def i64_abs (x : Int) : Int := if x = I64_MIN then I64_MIN else |x|

/-- Embedding of `normalize_value` (src/rng/engine.rs:46-50):
`let v = value.abs() % (max - min).max(1); (min + v) as f32`.
Rust `%` is truncated remainder (`Int.tmod`); the subtraction and the final
addition wrap in `i64`. The model returns the `i64` value computed before
the final `as f32` cast (the cast is exact for the magnitudes the claims
evaluate). -/
def normalize_value (value min max : Int) : Int :=
  let v := Int.tmod (i64_abs value) (Max.max (i64_wrap (max - min)) 1)
  i64_wrap (min + v)

/-! ### NumericGenerationWorker: batch generation loop -/

/-- Snapshot of the six-field `AtomicBounds` as read at the top of a batch
(src/rng/engine.rs:276-281). -/
structure RngBounds where
  min_x : Int
  max_x : Int
  min_y : Int
  max_y : Int
  min_z : Int
  max_z : Int
deriving DecidableEq

/-- Default bounds (src/rng/engine.rs:22-33). -/
def defaultBounds : RngBounds := ⟨-500, 500, -500, 500, -500, 500⟩

/-- A single-argument callable as used by the generation worker:
`func.call(vm_instance, &[state])`. -/
abbrev RngFn (σ : Type) := σ → List AelysValue → σ × Except String AelysValue

/-- Embedding of the per-batch generation loop (src/rng/engine.rs:288-332).
For each iteration the compiled function is called three times in a chain:
the first call consumes the current state, its raw (`as_int`, defaulting to
0) result is normalized into the x bounds; the raw `Value` feeds the second
call (y bounds), whose result feeds the third (z bounds); the third call's
result becomes the state for the next iteration.  On a call error the loop
breaks immediately; the partial batch built so far is returned together
with the error (the caller discards it, mirroring `error_occurred`).
Returns the mutated VM, the batch contents (the exact `i64` values whose
`as f32` casts the Rust code pushes) and either the final state or the
error message. -/
def rng_batch_loop {σ : Type} (func : RngFn σ) (vm : σ) (st : AelysValue)
    (b : RngBounds) : Nat → σ × List Int × Except String AelysValue
  | 0 => (vm, [], .ok st)
  | n + 1 =>
    match func vm [st] with
    | (vm1, .error e) => (vm1, [], .error e)
    | (vm1, .ok x_state) =>
      let x := (as_int x_state).getD 0
      let px := normalize_value x b.min_x b.max_x
      match func vm1 [x_state] with
      | (vm2, .error e) => (vm2, [px], .error e)
      | (vm2, .ok y_state) =>
        let y := (as_int y_state).getD 0
        let py := normalize_value y b.min_y b.max_y
        match func vm2 [y_state] with
        | (vm3, .error e) => (vm3, [px, py], .error e)
        | (vm3, .ok z_state) =>
          let z := (as_int z_state).getD 0
          let pz := normalize_value z b.min_z b.max_z
          let (vm', rest, res) := rng_batch_loop func vm3 z_state b n
          (vm', px :: py :: pz :: rest, res)

/-! ### Adaptive batch-size controller (src/rng/engine.rs:8-11, 340-350)

The Rust update is `((batch_size as f32 * 1.2) as usize).min(MAX_BATCH_SIZE)`
resp. `((batch_size as f32 * 0.8) as usize).max(MIN_BATCH_SIZE)`.  For the
batch sizes that can occur (`≤ 500_000 < 2^24`) the `usize → f32` conversion
is exact; the `f32` literals are `1.2f32 = 10066330 / 2^23` and
`0.8f32 = 13421773 / 2^24`; the product is rounded to 24 significant bits
(round to nearest, ties to even) and `as usize` truncates toward zero.
The thresholds `TARGET_BATCH_TIME_MS * 0.8` and `* 1.2` evaluate in `f32`
to exactly `4.0` and `6.0`. -/

def TARGET_BATCH_TIME_MS : ℚ := 5
def MIN_BATCH_SIZE : Nat := 1000
def MAX_BATCH_SIZE : Nat := 500000

/-- Round `a / b` to the nearest integer, ties to even (`b > 0`). -/
def roundHalfEven (a b : Nat) : Nat :=
  let q := a / b
  let r := a % b
  if 2 * r < b then q
  else if b < 2 * r then q + 1
  else if q % 2 = 0 then q else q + 1

/-- Bit length computed with structural fuel (so that the kernel can
evaluate it); `bits 64 n` is the bit length of any `n < 2^64`. -/
def bits (fuel n : Nat) : Nat :=
  match fuel with
  | 0 => 0
  | fuel + 1 => if n = 0 then 0 else bits fuel (n / 2) + 1

/-- Bit length of a 64-bit quantity. -/
def nsize (n : Nat) : Nat := bits 64 n

/-- Round a natural number to 24 significant bits (IEEE-754 single-precision
significand), returning `(m, s)` with value `m * 2^s`. -/
def f32_round24 (n : Nat) : Nat × Nat :=
  if nsize n ≤ 24 then (n, 0)
  else
    let s := nsize n - 24
    (roundHalfEven n (2 ^ s), s)

/-- `((bs as f32) * (mc / 2^e as f32)) as usize` for `bs < 2^24`:
the exact product `bs * mc / 2^e` is rounded to 24 significant bits and the
result truncated toward zero. -/
def f32_mul_trunc (bs mc e : Nat) : Nat :=
  let p := f32_round24 (bs * mc)
  p.1 * 2 ^ p.2 / 2 ^ e

/-- Embedding of the batch-size adaptation performed after each successful
batch (src/rng/engine.rs:346-350), as a function of the measured wall-clock
time for the batch (milliseconds). -/
def adjust_batch_size (bs : Nat) (elapsed_ms : ℚ) : Nat :=
  if elapsed_ms < 4 then min (f32_mul_trunc bs 10066330 23) MAX_BATCH_SIZE
  else if 6 < elapsed_ms then max (f32_mul_trunc bs 13421773 24) MIN_BATCH_SIZE
  else bs

/-! ### NumericGenerationWorker: state machine (src/rng/engine.rs:208-390) -/

/-- Model of `RngCommand` (src/rng/engine.rs:97-104). -/
inductive RngCmd where
  | updateCode (code : String)
  | stop
  | reset
  | setSeed (seed : Int)
  | pause
  | resume
deriving DecidableEq

/-- The thread-local state of `rng_thread` (src/rng/engine.rs:216-220)
together with the shared `last_error` slot it writes.  Performance counters
are not modelled (no claim mentions them). -/
structure RngWorkerState (σ : Type) where
  vm : Option σ
  rng_func : Option (RngFn σ)
  current_state : AelysValue
  batch_size : Nat
  running : Bool
  last_error : Option String

/-- Initial state of the worker thread (src/rng/engine.rs:216-220). -/
def initRngWorkerState (σ : Type) : RngWorkerState σ :=
  ⟨none, none, .int 12345, 10000, false, none⟩

/-- Embedding of `compile_rng` (src/rng/engine.rs:392-407): create a VM,
run the user source, fetch `rng` and reject it unless its arity is 1. -/
def compile_rng {σ : Type} (env : AelysEnv σ) (code : String) :
    Except String (σ × AelysFunc σ) :=
  match env.new_vm with
  | .error e => .error ("VM init error: " ++ e)
  | .ok vm =>
    match env.run_with_vm vm code "rng_def" with
    | (_, .error e) => .error e
    | (vm, .ok _) =>
      match env.get_function vm "rng" with
      | .error e => .error e
      | .ok func =>
        if func.arity ≠ 1 then
          .error ("Function \x27rng\x27 must take exactly 1 argument, got "
            ++ toString func.arity)
        else .ok (vm, func)

/-- Processing of a single drained command other than `Stop`
(src/rng/engine.rs:229-261). -/
def process_cmd {σ : Type} (env : AelysEnv σ) (s : RngWorkerState σ) :
    RngCmd → RngWorkerState σ
  | .updateCode code =>
    let s := { s with last_error := none, running := false }
    match compile_rng env code with
    | .ok (vm, func) =>
      { s with vm := some vm, rng_func := some func.call,
               current_state := .int 12345, batch_size := 10000,
               running := true }
    | .error e =>
      { s with last_error := some e, vm := none, rng_func := none }
  | .stop => s
  | .reset => { s with current_state := .int 12345, batch_size := 10000 }
  | .setSeed seed => { s with current_state := .int seed }
  | .pause => s
  | .resume => s

/-- Draining the command channel at the top of a loop iteration
(src/rng/engine.rs:228-262).  Returns the updated state and whether `Stop`
was received (which makes the thread return at once, leaving any later
commands unprocessed). -/
def process_cmds {σ : Type} (env : AelysEnv σ) (s : RngWorkerState σ) :
    List RngCmd → RngWorkerState σ × Bool
  | [] => (s, false)
  | .stop :: _ => (s, true)
  | c :: cs => process_cmds env (process_cmd env s c) cs

/-- The oracle inputs one iteration of the worker loop consumes: the
commands drained from the channel, the `paused` flag (relaxed atomic read),
the snapshot of the six bounds fields, and the measured wall-clock batch
time.  Channel disconnection is not modelled (the consumer outlives the
runs the claims quantify over); whether `try_send` finds the channel full
affects only the drop counters, not the produced batches. -/
structure LoopInput where
  cmds : List RngCmd
  paused : Bool
  bounds : RngBounds
  elapsed_ms : ℚ
deriving DecidableEq

/-- Embedding of the `rng_thread` main loop (src/rng/engine.rs:227-389) run
on a finite prefix of loop iterations.  Returns the final worker state and
the list of produced batches in production order (a produced batch is
handed to `try_send`; on a full channel it is dropped and counted, which
the claims do not inspect).  On an evaluation error the in-progress batch
is discarded, `last_error` is set, `running` is cleared and `current_state`
keeps its pre-batch value (the `error_occurred` / `continue` path). -/
def rng_thread_run {σ : Type} (env : AelysEnv σ) (s : RngWorkerState σ) :
    List LoopInput → RngWorkerState σ × List (List Int)
  | [] => (s, [])
  | inp :: rest =>
    match process_cmds env s inp.cmds with
    | (s1, true) => (s1, [])
    | (s1, false) =>
      if s1.running = false ∨ inp.paused then rng_thread_run env s1 rest
      else
        match s1.vm, s1.rng_func with
        | some vm, some func =>
          match rng_batch_loop func vm s1.current_state inp.bounds
              s1.batch_size with
          | (vm', _, .error e) =>
            rng_thread_run env
              { s1 with vm := some vm', running := false,
                        last_error := some e } rest
          | (vm', batch, .ok finalState) =>
            let bs := adjust_batch_size s1.batch_size inp.elapsed_ms
            let s2 := { s1 with vm := some vm',
                                current_state := finalState,
                                batch_size := bs }
            let (s', batches) := rng_thread_run env s2 rest
            (s', batch :: batches)
        | _, _ => rng_thread_run env s1 rest

/-! ### StreamingAccumulator (src/main.rs:297-328)

`App::update_rng` maintains one bounded buffer per display mode and runs the
same append/evict step on each incoming batch; only the configured maximum
differs: `max_floats = max_points.min(4_000_000) * 3` in 3D mode (the UI
slider keeps `max_points ≤ 4_000_000`, making the `min` a no-op) and
`grid_size^2 * 3` in 2D mode.  Buffer elements are `f32`; their values are
irrelevant to the eviction logic and are carried as `ℚ`. -/

/-- Embedding of one append/evict step of `App::update_rng`
(src/main.rs:302-311 for 3D, 317-325 for 2D): if the combined length
exceeds the maximum, drain the overflow from the front unless the overflow
reaches the current length, in which case clear; then append the batch. -/
def accumulate_batch (max_floats : Nat) (acc batch : List ℚ) : List ℚ :=
  (if acc.length + batch.length > max_floats then
    let overflow := acc.length + batch.length - max_floats
    if overflow < acc.length then acc.drop overflow else []
  else acc) ++ batch

/-! ### PresentationBuffer (src/renderer/point_cloud.rs) -/

def NUM_BUFFERS : Nat := 3
def MAX_POINTS_PER_BUFFER : Nat := 10000000

/-- Model of `PointCloudBuffers` (src/renderer/point_cloud.rs:19-26): three
pre-allocated device buffers per data shape, a single rotating index and the
per-shape point counts.  A device buffer is modelled as the list of floats
it holds (both `Point3D` and `Point2D` are 12 bytes, i.e. three `f32`s per
point). -/
structure PointCloudBuffers where
  buffers_3d : Fin 3 → List ℚ
  buffers_2d : Fin 3 → List ℚ
  current_buffer : Nat
  points_count_3d : Nat
  points_count_2d : Nat

/-- `PointCloudBuffers::new` (src/renderer/point_cloud.rs:29-55): freshly
created device buffers are zero-filled; the model keeps each slot at its
full capacity of `MAX_POINTS_PER_BUFFER * 3` zero floats. -/
def initPointCloudBuffers : PointCloudBuffers :=
  ⟨fun _ => List.replicate (MAX_POINTS_PER_BUFFER * 3) 0,
   fun _ => List.replicate (MAX_POINTS_PER_BUFFER * 3) 0, 0, 0, 0⟩

/-- Embedding of `PointCloudBuffers::upload_3d`
(src/renderer/point_cloud.rs:57-75): an empty upload returns at once;
otherwise the first `min(len/3, MAX_POINTS_PER_BUFFER)` points are written
at offset 0 of slot `(current_buffer + 1) % 3` (bytes past `byte_len` keep
their previous contents), and the rotating index advances to that slot. -/
def upload_3d (s : PointCloudBuffers) (points : List ℚ) : PointCloudBuffers :=
  if points.isEmpty then s
  else
    let next := (s.current_buffer + 1) % NUM_BUFFERS
    let point_count := min (points.length / 3) MAX_POINTS_PER_BUFFER
    { s with
      buffers_3d := fun k =>
        if k.val = next then
          points.take (point_count * 3)
            ++ (s.buffers_3d k).drop (point_count * 3)
        else s.buffers_3d k,
      current_buffer := next,
      points_count_3d := point_count }

/-- Embedding of `PointCloudBuffers::upload_2d`
(src/renderer/point_cloud.rs:77-95); identical rotation and truncation, on
the 2D buffer ring (`Point2D` is also three floats). -/
def upload_2d (s : PointCloudBuffers) (points : List ℚ) : PointCloudBuffers :=
  if points.isEmpty then s
  else
    let next := (s.current_buffer + 1) % NUM_BUFFERS
    let point_count := min (points.length / 3) MAX_POINTS_PER_BUFFER
    { s with
      buffers_2d := fun k =>
        if k.val = next then
          points.take (point_count * 3)
            ++ (s.buffers_2d k).drop (point_count * 3)
        else s.buffers_2d k,
      current_buffer := next,
      points_count_2d := point_count }

/-- A sequence of uploads, each targeting the 3D (`true`) or 2D (`false`)
ring; both advance the single rotating index. -/
def apply_uploads (s : PointCloudBuffers) :
    List (Bool × List ℚ) → PointCloudBuffers
  | [] => s
  | u :: us =>
    apply_uploads (if u.1 then upload_3d s u.2 else upload_2d s u.2) us

/-! ### MeshGenerationWorker (src/math/engine.rs, src/math/mesh.rs)

`f64` data is carried as exact rationals; decimal literals (`0.001`,
`100.0`, `50.0`, `200.0`, `0.0001`) are taken at their decimal value.
`f64::sqrt` has no exact rational counterpart and is threaded as an
explicit parameter `sqrtf`; it only enters the normal vectors, which no
claim inspects numerically.  `is_finite` is identically true on `ℚ`
(the model excludes NaN/±∞).  The `usize → u32` casts on the triangle
indices wrap modulo `2^32`, which the model keeps. -/

structure TriangleMesh where
  vertices : List ℚ
  normals : List ℚ
  indices : List Nat
deriving DecidableEq

structure SurfaceMesh where
  mesh : TriangleMesh
  z_min : ℚ
  z_max : ℚ
deriving DecidableEq

structure CurveMesh where
  vertices : List ℚ
deriving DecidableEq

structure ParametricSurfaceMesh where
  mesh : TriangleMesh
deriving DecidableEq

/-- The largest finite `f64`, the initial value of the running `z_min`
(`f64::MAX`; `f64::MIN` is its negation). -/
def F64_MAX : ℚ := 2 ^ 1024 - 2 ^ 971

/-- Row-major list of the `(i, j)` grid cells a `rows × cols` sampling
loop visits. -/
def grid_cells (rows cols : Nat) : List (Nat × Nat) :=
  (List.range rows).flatMap fun i => (List.range cols).map fun j => (i, j)

/-- The z-sampling loop of `compile_and_sample_surface`
(src/math/engine.rs:230-249): evaluate `f` at every grid node, aborting
with a formatted error on the first failing call; the VM state is threaded
through the calls.  (The running `z_min`/`z_max` updates of the same loop
are recovered from the returned samples by the caller; they do not feed
back into the sampling.) -/
def surface_sample_cells {σ : Type} (func : AelysFunc σ) (x0 dx y0 dy : ℚ) :
    σ → List (Nat × Nat) → Except String (σ × List ℚ)
  | vm, [] => .ok (vm, [])
  | vm, (i, j) :: rest =>
    let x := x0 + (i : ℚ) * dx
    let y := y0 + (j : ℚ) * dy
    match func.call vm [.float x, .float y] with
    | (_, .error e) =>
      .error ("Evaluation error at (" ++ toString x ++ ", " ++ toString y
        ++ "): " ++ e)
    | (vm1, .ok r) =>
      let z := match as_float r with
        | some q => q
        | none => ((as_int r).getD 0 : ℚ)
      match surface_sample_cells func x0 dx y0 dy vm1 rest with
      | .error e => .error e
      | .ok (vm2, zs) => .ok (vm2, z :: zs)

/-- Vertex-position pass of `compile_and_sample_surface`
(src/math/engine.rs:255-271): x and y are rescaled into a fixed visual
span, z is centred and scaled, and each vertex is pushed as
`(scaled_x, scaled_z, scaled_y)`. -/
def surface_vertices (x_range y_range : ℚ × ℚ) (res : Nat) (zs : List ℚ)
    (z_offset scale : ℚ) : List ℚ :=
  let dx := (x_range.2 - x_range.1) / ((res - 1 : Nat) : ℚ)
  let dy := (y_range.2 - y_range.1) / ((res - 1 : Nat) : ℚ)
  (List.range res).flatMap fun i => (List.range res).flatMap fun j =>
    let x := x_range.1 + (i : ℚ) * dx
    let y := y_range.1 + (j : ℚ) * dy
    let z := zs.getD (i * res + j) 0
    let scaled_x := x / (Max.max |x_range.2 - x_range.1| (1 / 1000)) * 200
    let scaled_y := y / (Max.max |y_range.2 - y_range.1| (1 / 1000)) * 200
    let scaled_z := (z - z_offset) * scale
    [scaled_x, scaled_z, scaled_y]

/-- Normal pass of `compile_and_sample_surface` (src/math/engine.rs:273-287):
centred finite differences in the interior, zero slope at the boundary,
normal `(-nx, 1, -ny)` normalized by `sqrt(nx^2 + ny^2 + 1)`. -/
def surface_normals (sqrtf : ℚ → ℚ) (dx dy : ℚ) (res : Nat) (zs : List ℚ) :
    List ℚ :=
  (List.range res).flatMap fun i => (List.range res).flatMap fun j =>
    let nx := if 0 < i ∧ i < res - 1 then
        (zs.getD ((i + 1) * res + j) 0 - zs.getD ((i - 1) * res + j) 0)
          / (2 * dx)
      else 0
    let ny := if 0 < j ∧ j < res - 1 then
        (zs.getD (i * res + (j + 1)) 0 - zs.getD (i * res + (j - 1)) 0)
          / (2 * dy)
      else 0
    let len := sqrtf (nx * nx + ny * ny + 1)
    [-nx / len, 1 / len, -ny / len]

/-- Triangulation of `compile_and_sample_surface` (src/math/engine.rs:291-306):
two triangles per grid cell, pushed as `tl, bl, tr, tr, bl, br`; the
`usize → u32` cast wraps modulo `2^32`. -/
def surface_indices (res : Nat) : List Nat :=
  (List.range (res - 1)).flatMap fun i =>
    (List.range (res - 1)).flatMap fun j =>
      let tl := (i * res + j) % 2 ^ 32
      let tr := (i * res + j + 1) % 2 ^ 32
      let bl := ((i + 1) * res + j) % 2 ^ 32
      let br := ((i + 1) * res + j + 1) % 2 ^ 32
      [tl, bl, tr, tr, bl, br]

/-- Embedding of `compile_and_sample_surface` (src/math/engine.rs:199-317):
compile the user source, fetch `f`, reject an arity other than 2 before any
sampling, then sample, rescale, build normals and triangulate.  (For
`resolution ≤ 1` the Rust code divides by zero in `f64` or underflows a
`usize`; the claims only evaluate `resolution ≥ 2`.) -/
def compile_and_sample_surface {σ : Type} (env : AelysEnv σ) (sqrtf : ℚ → ℚ)
    (code : String) (x_range y_range : ℚ × ℚ) (resolution : Nat) :
    Except String SurfaceMesh :=
  match env.new_vm with
  | .error e => .error ("VM init error: " ++ e)
  | .ok vm =>
    let full_code := "needs std.math;\n" ++ code
    match env.run_with_vm vm full_code "math_surface" with
    | (_, .error e) => .error e
    | (vm, .ok _) =>
      match env.get_function vm "f" with
      | .error e => .error e
      | .ok func =>
        if func.arity ≠ 2 then
          .error ("Function \x27f\x27 must take 2 arguments (x, y), got "
            ++ toString func.arity)
        else
          let dx := (x_range.2 - x_range.1) / ((resolution - 1 : Nat) : ℚ)
          let dy := (y_range.2 - y_range.1) / ((resolution - 1 : Nat) : ℚ)
          match surface_sample_cells func x_range.1 dx y_range.1 dy vm
              (grid_cells resolution resolution) with
          | .error e => .error e
          | .ok (_, zs) =>
            let z_min := zs.foldl Min.min F64_MAX
            let z_max := zs.foldl Max.max (-F64_MAX)
            let z_range := Max.max (z_max - z_min) (1 / 1000)
            let scale := 100 / z_range
            let z_offset := (z_min + z_max) / 2
            .ok ⟨⟨surface_vertices x_range y_range resolution zs z_offset
                    scale,
                  surface_normals sqrtf dx dy resolution zs,
                  surface_indices resolution⟩, z_min, z_max⟩

/-- The sampling loop of `compile_and_sample_parametric`
(src/math/engine.rs:336-359): at each parameter value call `fx`, `fy`, `fz`
in turn (threading the VM), abort on the first failing call, default a
non-float result to `0.0`, and push the three coordinates scaled by 50. -/
def curve_sample_points {σ : Type} (fx fy fz : AelysFunc σ) (t0 dt : ℚ) :
    σ → List Nat → Except String (σ × List ℚ)
  | vm, [] => .ok (vm, [])
  | vm, i :: rest =>
    let t := t0 + (i : ℚ) * dt
    match fx.call vm [.float t] with
    | (_, .error e) => .error ("fx error: " ++ e)
    | (vm1, .ok rx) =>
      let x := (as_float rx).getD 0
      match fy.call vm1 [.float t] with
      | (_, .error e) => .error ("fy error: " ++ e)
      | (vm2, .ok ry) =>
        let y := (as_float ry).getD 0
        match fz.call vm2 [.float t] with
        | (_, .error e) => .error ("fz error: " ++ e)
        | (vm3, .ok rz) =>
          let z := (as_float rz).getD 0
          match curve_sample_points fx fy fz t0 dt vm3 rest with
          | .error e => .error e
          | .ok (vm4, vs) => .ok (vm4, x * 50 :: y * 50 :: z * 50 :: vs)

/-- Embedding of `compile_and_sample_parametric` (src/math/engine.rs:319-362):
compile, fetch `fx`, `fy`, `fz` and sample the t-range.  Note: unlike the
surface and parametric-surface paths, the source performs no arity
validation here; it proceeds straight to sampling. -/
def compile_and_sample_parametric {σ : Type} (env : AelysEnv σ)
    (code : String) (t_range : ℚ × ℚ) (samples : Nat) :
    Except String CurveMesh :=
  match env.new_vm with
  | .error e => .error ("VM init error: " ++ e)
  | .ok vm =>
    let full_code := "needs std.math;\n" ++ code
    match env.run_with_vm vm full_code "math_parametric" with
    | (_, .error e) => .error e
    | (vm, .ok _) =>
      match env.get_function vm "fx" with
      | .error e => .error ("fx: " ++ e)
      | .ok fx =>
        match env.get_function vm "fy" with
        | .error e => .error ("fy: " ++ e)
        | .ok fy =>
          match env.get_function vm "fz" with
          | .error e => .error ("fz: " ++ e)
          | .ok fz =>
            let dt := (t_range.2 - t_range.1) / ((samples - 1 : Nat) : ℚ)
            match curve_sample_points fx fy fz t_range.1 dt vm
                (List.range samples) with
            | .error e => .error e
            | .ok (_, vertices) => .ok ⟨vertices⟩

/-- The sampling loop of `compile_and_sample_parametric_surface`
(src/math/engine.rs:389-412): evaluate `fx`, `fy`, `fz` at every `(u, v)`
grid node, aborting with a formatted error on the first failing call. -/
def psurf_sample_cells {σ : Type} (fx fy fz : AelysFunc σ)
    (u0 du v0 dv : ℚ) : σ → List (Nat × Nat) →
    Except String (σ × List (ℚ × ℚ × ℚ))
  | vm, [] => .ok (vm, [])
  | vm, (i, j) :: rest =>
    let u := u0 + (i : ℚ) * du
    let v := v0 + (j : ℚ) * dv
    match fx.call vm [.float u, .float v] with
    | (_, .error e) =>
      .error ("fx error at (" ++ toString u ++ ", " ++ toString v ++ "): "
        ++ e)
    | (vm1, .ok rx) =>
      let x := (as_float rx).getD 0
      match fy.call vm1 [.float u, .float v] with
      | (_, .error e) =>
        .error ("fy error at (" ++ toString u ++ ", " ++ toString v ++ "): "
          ++ e)
      | (vm2, .ok ry) =>
        let y := (as_float ry).getD 0
        match fz.call vm2 [.float u, .float v] with
        | (_, .error e) =>
          .error ("fz error at (" ++ toString u ++ ", " ++ toString v
            ++ "): " ++ e)
        | (vm3, .ok rz) =>
          let z := (as_float rz).getD 0
          match psurf_sample_cells fx fy fz u0 du v0 dv vm3 rest with
          | .error e => .error e
          | .ok (vm4, ps) => .ok (vm4, (x, y, z) :: ps)

/-- `positions[i][j]` of the parametric-surface pass, as a flat row-major
list. -/
def pget (ps : List (ℚ × ℚ × ℚ)) (v_samples i j : Nat) : ℚ × ℚ × ℚ :=
  ps.getD (i * v_samples + j) (0, 0, 0)

/-- Vertex/normal pass of `compile_and_sample_parametric_surface`
(src/math/engine.rs:417-482): tangents along u and v from centred (interior)
or one-sided (boundary) finite differences, normal from their cross product
normalized by `sqrt(..).max(0.0001)`; vertices scaled by 50.  Returns
`(vertices, normals)`. -/
def psurf_vertices_normals (sqrtf : ℚ → ℚ) (du dv : ℚ)
    (u_samples v_samples : Nat) (ps : List (ℚ × ℚ × ℚ)) :
    List ℚ × List ℚ :=
  ((List.range u_samples).flatMap fun i =>
      (List.range v_samples).flatMap fun j =>
        let p := pget ps v_samples i j
        [p.1 * 50, p.2.1 * 50, p.2.2 * 50],
   (List.range u_samples).flatMap fun i =>
      (List.range v_samples).flatMap fun j =>
        let p := pget ps v_samples i j
        let tangent_u :=
          if 0 < i ∧ i < u_samples - 1 then
            let pp := pget ps v_samples (i + 1) j
            let pm := pget ps v_samples (i - 1) j
            ((pp.1 - pm.1) / (2 * du), (pp.2.1 - pm.2.1) / (2 * du),
             (pp.2.2 - pm.2.2) / (2 * du))
          else if i = 0 then
            let pn := pget ps v_samples (i + 1) j
            ((pn.1 - p.1) / du, (pn.2.1 - p.2.1) / du, (pn.2.2 - p.2.2) / du)
          else
            let pp := pget ps v_samples (i - 1) j
            ((p.1 - pp.1) / du, (p.2.1 - pp.2.1) / du, (p.2.2 - pp.2.2) / du)
        let tangent_v :=
          if 0 < j ∧ j < v_samples - 1 then
            let pp := pget ps v_samples i (j + 1)
            let pm := pget ps v_samples i (j - 1)
            ((pp.1 - pm.1) / (2 * dv), (pp.2.1 - pm.2.1) / (2 * dv),
             (pp.2.2 - pm.2.2) / (2 * dv))
          else if j = 0 then
            let pn := pget ps v_samples i (j + 1)
            ((pn.1 - p.1) / dv, (pn.2.1 - p.2.1) / dv, (pn.2.2 - p.2.2) / dv)
          else
            let pp := pget ps v_samples i (j - 1)
            ((p.1 - pp.1) / dv, (p.2.1 - pp.2.1) / dv, (p.2.2 - pp.2.2) / dv)
        let nx := tangent_u.2.1 * tangent_v.2.2 - tangent_u.2.2 * tangent_v.2.1
        let ny := tangent_u.2.2 * tangent_v.1 - tangent_u.1 * tangent_v.2.2
        let nz := tangent_u.1 * tangent_v.2.1 - tangent_u.2.1 * tangent_v.1
        let len := Max.max (sqrtf (nx * nx + ny * ny + nz * nz)) (1 / 10000)
        [nx / len, ny / len, nz / len])

/-- Triangulation of `compile_and_sample_parametric_surface`
(src/math/engine.rs:484-500), identical in shape to the height-field
triangulation over a `u_samples × v_samples` grid. -/
def psurf_indices (u_samples v_samples : Nat) : List Nat :=
  (List.range (u_samples - 1)).flatMap fun i =>
    (List.range (v_samples - 1)).flatMap fun j =>
      let tl := (i * v_samples + j) % 2 ^ 32
      let tr := (i * v_samples + j + 1) % 2 ^ 32
      let bl := ((i + 1) * v_samples + j) % 2 ^ 32
      let br := ((i + 1) * v_samples + j + 1) % 2 ^ 32
      [tl, bl, tr, tr, bl, br]

/-- Embedding of `compile_and_sample_parametric_surface`
(src/math/engine.rs:364-509): compile, fetch `fx`, `fy`, `fz`, reject any
arity other than 2 for each of them before any sampling, then sample the
`(u, v)` grid and build the mesh. -/
def compile_and_sample_parametric_surface {σ : Type} (env : AelysEnv σ)
    (sqrtf : ℚ → ℚ) (code : String) (u_range v_range : ℚ × ℚ)
    (u_samples v_samples : Nat) : Except String ParametricSurfaceMesh :=
  match env.new_vm with
  | .error e => .error ("VM init error: " ++ e)
  | .ok vm =>
    let full_code := "needs std.math;\n" ++ code
    match env.run_with_vm vm full_code "math_parametric_surface" with
    | (_, .error e) => .error e
    | (vm, .ok _) =>
      match env.get_function vm "fx" with
      | .error e => .error ("fx: " ++ e)
      | .ok fx =>
        match env.get_function vm "fy" with
        | .error e => .error ("fy: " ++ e)
        | .ok fy =>
          match env.get_function vm "fz" with
          | .error e => .error ("fz: " ++ e)
          | .ok fz =>
            if fx.arity ≠ 2 ∨ fy.arity ≠ 2 ∨ fz.arity ≠ 2 then
              .error "Functions fx, fy, fz must each take 2 arguments (u, v)"
            else
              let du := (u_range.2 - u_range.1) / ((u_samples - 1 : Nat) : ℚ)
              let dv := (v_range.2 - v_range.1) / ((v_samples - 1 : Nat) : ℚ)
              match psurf_sample_cells fx fy fz u_range.1 du v_range.1 dv vm
                  (grid_cells u_samples v_samples) with
              | .error e => .error e
              | .ok (_, ps) =>
                let vn := psurf_vertices_normals sqrtf du dv u_samples
                  v_samples ps
                .ok ⟨⟨vn.1, vn.2, psurf_indices u_samples v_samples⟩⟩

/-! ### Helper lemmas -/

theorem i64_wrap_eq_self {x : Int} (h1 : -(2 ^ 63) ≤ x) (h2 : x < 2 ^ 63) :
    i64_wrap x = x := by
  unfold i64_wrap
  omega

theorem normalize_value_zero {mn mx : Int} (h1 : -(2 ^ 63) ≤ mn)
    (h2 : mn < mx) (h3 : mx < 2 ^ 63) : normalize_value 0 mn mx = mn := by
  unfold normalize_value i64_abs
  have hmin : (0 : Int) ≠ I64_MIN := by unfold I64_MIN; omega
  simp only [hmin, if_false, abs_zero, Int.zero_tmod]
  rw [Int.add_zero]
  exact i64_wrap_eq_self h1 (lt_trans h2 h3)

/-! ### Claim C4: the normalization formula and its range -/

/-- Claim C4, counterexample: at `raw = i64::MIN` the release-mode `abs`
wraps to `i64::MIN` itself, the truncated remainder is negative, and the
result `-1308` falls below the claimed interval `[-500, 500)`; so the claim
does not hold for every 64-bit raw value. -/
theorem c4_counterexample :
    normalize_value I64_MIN (-500) 500 = -1308 ∧
    ¬(-500 ≤ normalize_value I64_MIN (-500) 500 ∧
      normalize_value I64_MIN (-500) 500 < -500 + Max.max (500 - -500) 1) := by
  constructor
  · decide
  · decide

/-- Claim C4, amended: for every 64-bit raw value other than `i64::MIN`,
and bounds with `min < max` whose difference does not overflow `i64`, the
value computed before the `as f32` cast equals `min + (|raw| mod
max(max-min, 1))` and lies in `[min, min + max(max-min, 1))`. -/
theorem c4_amended (value mn mx : Int) (hv1 : -(2 ^ 63) ≤ value)
    (hv2 : value < 2 ^ 63) (hvmin : value ≠ I64_MIN) (hmn : -(2 ^ 63) ≤ mn)
    (hmx : mx < 2 ^ 63) (hlt : mn < mx) (hrange : mx - mn ≤ 2 ^ 63 - 1) :
    normalize_value value mn mx = mn + |value| % Max.max (mx - mn) 1 ∧
    mn ≤ normalize_value value mn mx ∧
    normalize_value value mn mx < mn + Max.max (mx - mn) 1 := by
  have hd : Max.max (mx - mn) 1 = mx - mn := max_eq_left (by omega)
  have habs : i64_abs value = |value| := by unfold i64_abs; simp [hvmin]
  have hwrapd : i64_wrap (mx - mn) = mx - mn :=
    i64_wrap_eq_self (by omega) (by omega)
  have hmod1 : 0 ≤ |value| % (mx - mn) := Int.emod_nonneg _ (by omega)
  have hmod2 : |value| % (mx - mn) < mx - mn :=
    Int.emod_lt_of_pos _ (by omega)
  have htmod : Int.tmod |value| (mx - mn) = |value| % (mx - mn) :=
    Int.tmod_eq_emod (abs_nonneg value) (by omega)
  have hval : normalize_value value mn mx = mn + |value| % (mx - mn) := by
    unfold normalize_value
    rw [habs, hwrapd, hd, htmod]
    exact i64_wrap_eq_self (by omega) (by omega)
  refine ⟨by rw [hval, hd], by rw [hval]; omega, by rw [hval, hd]; omega⟩

/-- Witness for `c4_amended` at `raw = 1`, bounds `(-500, 500)`. -/
theorem c4_amended_witness :
    normalize_value 1 (-500) 500 = -500 + |1| % Max.max (500 - -500) 1 ∧
    -500 ≤ normalize_value 1 (-500) 500 ∧
    normalize_value 1 (-500) 500 < -500 + Max.max (500 - -500) 1 :=
  c4_amended 1 (-500) 500 (by decide) (by decide) (by decide) (by decide)
    (by decide) (by decide) (by decide)

/-! ### Claim C1: the streaming accumulator bound -/

/-- Claim C1, counterexample: a single batch longer than the configured
maximum (here 6 floats against a maximum of 3) makes the overflow reach the
current length, so the buffer is cleared and the whole batch appended; the
resulting length 6 exceeds the maximum 3. -/
theorem c1_counterexample :
    accumulate_batch 3 [] (List.replicate 6 (0 : ℚ))
      = List.replicate 6 (0 : ℚ) ∧
    3 < (accumulate_batch 3 [] (List.replicate 6 (0 : ℚ))).length := by
  constructor
  · decide
  · decide

/-- Claim C1, amended: provided each incoming batch is no longer than the
configured maximum, the buffer length never exceeds the maximum after the
append/evict step; the step appends the batch unchanged when it fits, and
otherwise drains exactly the overflow from the front (clearing entirely
when the overflow reaches the current length) leaving the buffer exactly
full.  A batch longer than the maximum leaves the buffer holding exactly
that batch, exceeding the maximum. -/
theorem c1_amended (max_floats : Nat) (acc batch : List ℚ)
    (hb : batch.length ≤ max_floats) :
    (accumulate_batch max_floats acc batch).length ≤ max_floats ∧
    (acc.length + batch.length ≤ max_floats →
      accumulate_batch max_floats acc batch = acc ++ batch) ∧
    (max_floats < acc.length + batch.length →
      accumulate_batch max_floats acc batch
        = acc.drop (acc.length + batch.length - max_floats) ++ batch ∧
      (accumulate_batch max_floats acc batch).length = max_floats) := by
  by_cases hov : acc.length + batch.length > max_floats
  · by_cases hlt : acc.length + batch.length - max_floats < acc.length
    · have he : accumulate_batch max_floats acc batch
          = acc.drop (acc.length + batch.length - max_floats) ++ batch := by
        simp only [accumulate_batch]
        rw [if_pos hov, if_pos hlt]
      refine ⟨?_, fun h => absurd h (by omega), fun _ => ⟨he, ?_⟩⟩
      · rw [he]; simp only [List.length_append, List.length_drop]; omega
      · rw [he]; simp only [List.length_append, List.length_drop]; omega
    · have he : accumulate_batch max_floats acc batch = [] ++ batch := by
        simp only [accumulate_batch]
        rw [if_pos hov, if_neg hlt]
      have hdrop : acc.drop (acc.length + batch.length - max_floats) = [] :=
        List.drop_eq_nil_of_le (by omega)
      refine ⟨?_, fun h => absurd h (by omega), fun _ => ⟨?_, ?_⟩⟩
      · rw [he]; simp only [List.nil_append]; omega
      · rw [he, hdrop]
      · rw [he]; simp only [List.nil_append]; omega
  · have he : accumulate_batch max_floats acc batch = acc ++ batch := by
      simp only [accumulate_batch]
      rw [if_neg hov]
    refine ⟨?_, fun _ => he, fun h => absurd h (by omega)⟩
    rw [he]; simp only [List.length_append]; omega

/-- Witness for `c1_amended`: a full buffer of 3 floats receiving a 3-float
batch against a maximum of 3. -/
theorem c1_amended_witness :
    (accumulate_batch 3 [0, 0, 0] [1, 1, 1]).length ≤ 3 ∧
    ((3 : Nat) < 3 + 3 →
      accumulate_batch 3 [0, 0, 0] [1, 1, 1]
        = List.drop (3 + 3 - 3) [0, 0, 0] ++ [1, 1, 1] ∧
      (accumulate_batch 3 [0, 0, 0] [1, 1, 1]).length = 3) := by
  have h := c1_amended 3 [0, 0, 0] [1, 1, 1] (by decide)
  exact ⟨h.1, by simpa using h.2.2⟩

/-! ### Claim C7: triple-buffer rotation and truncation -/

theorem upload_3d_current {s : PointCloudBuffers} {pts : List ℚ}
    (h : pts ≠ []) :
    (upload_3d s pts).current_buffer = (s.current_buffer + 1) % 3 := by
  unfold upload_3d
  rw [if_neg (by simpa using h)]
  rfl

theorem upload_2d_current {s : PointCloudBuffers} {pts : List ℚ}
    (h : pts ≠ []) :
    (upload_2d s pts).current_buffer = (s.current_buffer + 1) % 3 := by
  unfold upload_2d
  rw [if_neg (by simpa using h)]
  rfl

theorem apply_uploads_current (us : List (Bool × List ℚ)) :
    ∀ s : PointCloudBuffers, s.current_buffer < 3 →
    (∀ u ∈ us, u.2 ≠ []) →
    (apply_uploads s us).current_buffer
      = (s.current_buffer + us.length) % 3 := by
  induction us with
  | nil =>
    intro s hs _
    simp only [apply_uploads, List.length_nil, Nat.add_zero]
    omega
  | cons u us ih =>
    intro s hs hne
    have hu : u.2 ≠ [] := hne u (List.mem_cons_self u us)
    have hrest : ∀ v ∈ us, v.2 ≠ [] := fun v hv =>
      hne v (List.mem_cons_of_mem u hv)
    simp only [apply_uploads]
    by_cases hb : u.1
    · rw [hb, if_pos rfl, ih _ (by rw [upload_3d_current hu]; omega) hrest,
        upload_3d_current hu]
      simp only [List.length_cons]
      omega
    · rw [eq_false_of_ne_true hb, if_neg (by simp),
        ih _ (by rw [upload_2d_current hu]; omega) hrest,
        upload_2d_current hu]
      simp only [List.length_cons]
      omega

/-- Claim C7, counterexample: an upload of an empty point list returns
without rotating (src/renderer/point_cloud.rs:58-60), so after `k = 1`
uploads the active slot index can still be `0 ≠ 1 mod 3`. -/
theorem c7_counterexample :
    (upload_3d initPointCloudBuffers []).current_buffer = 0 ∧
    (0 : Nat) ≠ 1 % 3 := by
  constructor
  · rfl
  · decide

/-- Claim C7, amended: restricted to non-empty uploads the claim holds:
starting from slot index 0, after `k` non-empty uploads (of either shape)
the active index is `k mod 3`; each non-empty upload writes only slot
`(current + 1) mod 3`, which differs from the slot the preceding render
read, and its stored point count is truncated to the per-slot capacity
`min(len/3, MAX_POINTS_PER_BUFFER)`.  An empty upload is a no-op and does
not advance the index. -/
theorem c7_amended :
    (∀ us : List (Bool × List ℚ), (∀ u ∈ us, u.2 ≠ []) →
      (apply_uploads initPointCloudBuffers us).current_buffer
        = us.length % 3) ∧
    (∀ (s : PointCloudBuffers) (pts : List ℚ), s.current_buffer < 3 →
      pts ≠ [] →
      (upload_3d s pts).current_buffer = (s.current_buffer + 1) % 3 ∧
      (upload_3d s pts).current_buffer ≠ s.current_buffer ∧
      (∀ k : Fin 3, k.val ≠ (s.current_buffer + 1) % 3 →
        (upload_3d s pts).buffers_3d k = s.buffers_3d k) ∧
      (upload_3d s pts).points_count_3d
        = min (pts.length / 3) MAX_POINTS_PER_BUFFER) ∧
    (∀ (s : PointCloudBuffers) (pts : List ℚ), s.current_buffer < 3 →
      pts ≠ [] →
      (upload_2d s pts).current_buffer = (s.current_buffer + 1) % 3 ∧
      (upload_2d s pts).current_buffer ≠ s.current_buffer ∧
      (∀ k : Fin 3, k.val ≠ (s.current_buffer + 1) % 3 →
        (upload_2d s pts).buffers_2d k = s.buffers_2d k) ∧
      (upload_2d s pts).points_count_2d
        = min (pts.length / 3) MAX_POINTS_PER_BUFFER) := by
  refine ⟨?_, ?_, ?_⟩
  · intro us hne
    have h := apply_uploads_current us initPointCloudBuffers
      (by simp [initPointCloudBuffers]) hne
    simpa [initPointCloudBuffers] using h
  · intro s pts hs hne
    have hcur := upload_3d_current (s := s) hne
    refine ⟨hcur, by rw [hcur]; omega, ?_, ?_⟩
    · intro k hk
      unfold upload_3d
      rw [if_neg (by simpa using hne)]
      simp only [NUM_BUFFERS]
      rw [if_neg hk]
    · unfold upload_3d
      rw [if_neg (by simpa using hne)]
  · intro s pts hs hne
    have hcur := upload_2d_current (s := s) hne
    refine ⟨hcur, by rw [hcur]; omega, ?_, ?_⟩
    · intro k hk
      unfold upload_2d
      rw [if_neg (by simpa using hne)]
      simp only [NUM_BUFFERS]
      rw [if_neg hk]
    · unfold upload_2d
      rw [if_neg (by simpa using hne)]

/-- Witness for `c7_amended`: three non-empty uploads rotate the index back
to 0, and a single upload from the initial state writes slot 1 only. -/
theorem c7_amended_witness :
    (apply_uploads initPointCloudBuffers
      [(true, [1, 2, 3]), (true, [4, 5, 6]), (false, [7, 8, 9])]
    ).current_buffer = 3 % 3 ∧
    (upload_3d initPointCloudBuffers [1, 2, 3]).points_count_3d
      = min (3 / 3) MAX_POINTS_PER_BUFFER := by
  constructor
  · exact c7_amended.1 [(true, [1, 2, 3]), (true, [4, 5, 6]),
      (false, [7, 8, 9])] (by intro u hu; fin_cases hu <;> simp)
  · exact (c7_amended.2.1 initPointCloudBuffers [1, 2, 3]
      (by simp [initPointCloudBuffers]) (by simp)).2.2.2

/-! ### Claims C5 and C10: the three-call chain per iteration -/

/-- The recurrence `rng(state) = state + 1` of the spec's concrete
scenario, as a compiled callable: adds one to an integer argument and
reports a runtime error on any other argument shape. -/
def add_one_rng : RngFn Unit := fun vm args =>
  (vm, match args with
    | [.int i] => .ok (.int (i + 1))
    | _ => .error "type error: expected int")

/-- One-iteration unrolling of the generation loop when all three calls
succeed: the values chain through the calls and each is normalized into
its axis bounds. -/
theorem rng_batch_loop_one (σ : Type) (f : RngFn σ) (vm vm1 vm2 vm3 : σ)
    (st v1 v2 v3 : AelysValue) (b : RngBounds)
    (h1 : f vm [st] = (vm1, .ok v1)) (h2 : f vm1 [v1] = (vm2, .ok v2))
    (h3 : f vm2 [v2] = (vm3, .ok v3)) :
    rng_batch_loop f vm st b 1
      = (vm3, [normalize_value ((as_int v1).getD 0) b.min_x b.max_x,
               normalize_value ((as_int v2).getD 0) b.min_y b.max_y,
               normalize_value ((as_int v3).getD 0) b.min_z b.max_z],
         .ok v3) := by
  simp only [rng_batch_loop, h1, h2, h3]

/-- Claim C5: each iteration calls the compiled function three times in a
chain (the raw result of each call is the argument of the next, each raw
result is normalized into the respective axis bounds, the third becomes the
new state), and the spec's concrete scenario — `rng(state) = state + 1`,
seed 0, bounds `(-500, 500)` on every axis — yields the triples
`(-499, -498, -497)` with new state 3 and then `(-496, -495, -494)` with
new state 6. -/
theorem theorem_c5 :
    (∀ (σ : Type) (f : RngFn σ) (vm vm1 vm2 vm3 : σ)
      (st v1 v2 v3 : AelysValue) (b : RngBounds),
      f vm [st] = (vm1, .ok v1) → f vm1 [v1] = (vm2, .ok v2) →
      f vm2 [v2] = (vm3, .ok v3) →
      rng_batch_loop f vm st b 1
        = (vm3, [normalize_value ((as_int v1).getD 0) b.min_x b.max_x,
                 normalize_value ((as_int v2).getD 0) b.min_y b.max_y,
                 normalize_value ((as_int v3).getD 0) b.min_z b.max_z],
           .ok v3)) ∧
    rng_batch_loop add_one_rng () (.int 0) defaultBounds 2
      = ((), [-499, -498, -497, -496, -495, -494], .ok (.int 6)) := by
  constructor
  · exact rng_batch_loop_one
  · rfl

/-- Witness for `theorem_c5`: the general chain applied to the concrete
recurrence at seed 0 gives the first triple of the scenario. -/
theorem theorem_c5_witness :
    rng_batch_loop add_one_rng () (.int 0) defaultBounds 1
      = ((), [-499, -498, -497], .ok (.int 3)) := by
  have h := theorem_c5.1 Unit add_one_rng () () () () (.int 0) (.int 1)
    (.int 2) (.int 3) defaultBounds rfl rfl rfl
  rw [h]
  rfl

/-- Claim C10: when a call succeeds with a non-integer value, `as_int`
yields nothing, the raw coordinate defaults to 0 and the emitted coordinate
is `normalize(0, min, max) = min`; the non-integer `Value` itself is still
the argument of the next call, and the third call's value becomes the new
state.  (The hypotheses name the three calls of one iteration; the first
yields a non-integer `v1`.) -/
theorem theorem_c10 (σ : Type) (f : RngFn σ) (vm vm1 vm2 vm3 : σ)
    (st v1 v2 v3 : AelysValue) (b : RngBounds)
    (h1 : f vm [st] = (vm1, .ok v1)) (hni : as_int v1 = none)
    (h2 : f vm1 [v1] = (vm2, .ok v2)) (h3 : f vm2 [v2] = (vm3, .ok v3))
    (hb1 : -(2 ^ 63) ≤ b.min_x) (hb2 : b.min_x < b.max_x)
    (hb3 : b.max_x < 2 ^ 63) :
    rng_batch_loop f vm st b 1
      = (vm3, [b.min_x,
               normalize_value ((as_int v2).getD 0) b.min_y b.max_y,
               normalize_value ((as_int v3).getD 0) b.min_z b.max_z],
         .ok v3) := by
  have h := rng_batch_loop_one σ f vm vm1 vm2 vm3 st v1 v2 v3 b h1 h2 h3
  rw [h, hni]
  simp only [Option.getD_none]
  rw [normalize_value_zero hb1 hb2 hb3]

/-- Witness for `theorem_c10`: a call returning the float `1/2` (not an
integer) makes every axis emit its lower bound. -/
theorem theorem_c10_witness :
    rng_batch_loop (fun vm _ => (vm, .ok (.float (1 / 2)))) () .other
      defaultBounds 1
      = ((), [-500, -500, -500], .ok (.float (1 / 2))) := by
  have h := theorem_c10 Unit (fun vm _ => (vm, .ok (.float (1 / 2)))) () () ()
    () .other (.float (1 / 2)) (.float (1 / 2)) (.float (1 / 2))
    defaultBounds rfl rfl rfl rfl (by decide) (by decide) (by decide)
  rw [h]
  rfl

/-! ### Claim C6: adaptive batch size stays in `[MIN, MAX]` -/

theorem roundHalfEven_ge (a b : Nat) : a / b ≤ roundHalfEven a b := by
  simp only [roundHalfEven]
  repeat' split
  all_goals omega

theorem roundHalfEven_le (a b : Nat) : roundHalfEven a b ≤ a / b + 1 := by
  simp only [roundHalfEven]
  repeat' split
  all_goals omega

theorem bits_le : ∀ (fuel n k : Nat), n < 2 ^ k → k ≤ fuel →
    bits fuel n ≤ k := by
  intro fuel
  induction fuel with
  | zero => intro n k _ _; simp [bits]
  | succ f ih =>
    intro n k hn hk
    unfold bits
    split
    · omega
    · rename_i hne
      have hk1 : 1 ≤ k := by
        by_contra hk0
        have : k = 0 := by omega
        subst this
        simp at hn
        omega
      have hdiv : n / 2 < 2 ^ (k - 1) := by
        have h2 : 2 ^ k = 2 ^ (k - 1) * 2 := by
          rw [← pow_succ]
          congr 1
          omega
        omega
      have := ih (n / 2) (k - 1) hdiv (by omega)
      omega

theorem nsize_le {n k : Nat} (hn : n < 2 ^ k) (hk : k ≤ 64) : nsize n ≤ k :=
  bits_le 64 n k hn hk

theorem f32_mul_trunc_le {bs mc e : Nat} (hn : bs * mc < 2 ^ 43) :
    f32_mul_trunc bs mc e ≤ (bs * mc + 2 ^ 19) / 2 ^ e := by
  unfold f32_mul_trunc f32_round24
  apply Nat.div_le_div_right
  split
  · dsimp only
    simp only [pow_zero, Nat.mul_one]
    omega
  · dsimp only
    have hs : nsize (bs * mc) ≤ 43 := nsize_le hn (by norm_num)
    have he : nsize (bs * mc) - 24 ≤ 19 := by omega
    calc roundHalfEven (bs * mc) (2 ^ (nsize (bs * mc) - 24))
        * 2 ^ (nsize (bs * mc) - 24)
        ≤ (bs * mc / 2 ^ (nsize (bs * mc) - 24) + 1)
          * 2 ^ (nsize (bs * mc) - 24) :=
          Nat.mul_le_mul_right _ (roundHalfEven_le _ _)
      _ = bs * mc / 2 ^ (nsize (bs * mc) - 24) * 2 ^ (nsize (bs * mc) - 24)
          + 2 ^ (nsize (bs * mc) - 24) := by ring
      _ ≤ bs * mc + 2 ^ 19 :=
          Nat.add_le_add (Nat.div_mul_le_self _ _)
            (Nat.pow_le_pow_right (by norm_num) he)

theorem f32_mul_trunc_ge {bs mc e : Nat} (hn : bs * mc < 2 ^ 43) :
    (bs * mc - 2 ^ 19) / 2 ^ e ≤ f32_mul_trunc bs mc e := by
  unfold f32_mul_trunc f32_round24
  apply Nat.div_le_div_right
  split
  · dsimp only
    simp only [pow_zero, Nat.mul_one]
    omega
  · dsimp only
    have hs : nsize (bs * mc) ≤ 43 := nsize_le hn (by norm_num)
    have he : nsize (bs * mc) - 24 ≤ 19 := by omega
    have hdm : bs * mc / 2 ^ (nsize (bs * mc) - 24)
          * 2 ^ (nsize (bs * mc) - 24)
        + bs * mc % 2 ^ (nsize (bs * mc) - 24) = bs * mc :=
      Nat.div_add_mod' _ _
    have hmod : bs * mc % 2 ^ (nsize (bs * mc) - 24)
        < 2 ^ (nsize (bs * mc) - 24) := Nat.mod_lt _ (by positivity)
    have hle19 : bs * mc % 2 ^ (nsize (bs * mc) - 24) ≤ 2 ^ 19 :=
      le_trans (Nat.le_of_lt hmod) (Nat.pow_le_pow_right (by norm_num) he)
    have hq2 : bs * mc / 2 ^ (nsize (bs * mc) - 24)
          * 2 ^ (nsize (bs * mc) - 24)
        ≤ roundHalfEven (bs * mc) (2 ^ (nsize (bs * mc) - 24))
          * 2 ^ (nsize (bs * mc) - 24) :=
      Nat.mul_le_mul_right _ (roundHalfEven_ge _ _)
    omega

theorem adjust_batch_size_mem (bs : Nat) (h1 : MIN_BATCH_SIZE ≤ bs)
    (h2 : bs ≤ MAX_BATCH_SIZE) (t : ℚ) :
    MIN_BATCH_SIZE ≤ adjust_batch_size bs t ∧
    adjust_batch_size bs t ≤ MAX_BATCH_SIZE := by
  simp only [MIN_BATCH_SIZE, MAX_BATCH_SIZE] at h1 h2 ⊢
  unfold adjust_batch_size
  split
  · have hn : bs * 10066330 < 2 ^ 43 := by omega
    have hge := f32_mul_trunc_ge (e := 23) hn
    have hmono : (1000 * 10066330 - 2 ^ 19) / 2 ^ 23
        ≤ (bs * 10066330 - 2 ^ 19) / 2 ^ 23 :=
      Nat.div_le_div_right (by omega)
    have hlow : (1000 : Nat) ≤ (bs * 10066330 - 2 ^ 19) / 2 ^ 23 :=
      le_trans (by norm_num) hmono
    refine ⟨le_min (le_trans hlow hge) (by norm_num [MAX_BATCH_SIZE]), ?_⟩
    exact le_trans (min_le_right _ _) (by norm_num [MAX_BATCH_SIZE])
  split
  · have hn : bs * 13421773 < 2 ^ 43 := by omega
    have hle := f32_mul_trunc_le (e := 24) hn
    have hmono : (bs * 13421773 + 2 ^ 19) / 2 ^ 24
        ≤ (500000 * 13421773 + 2 ^ 19) / 2 ^ 24 :=
      Nat.div_le_div_right (by omega)
    refine ⟨le_trans (by norm_num [MIN_BATCH_SIZE]) (le_max_right _ _), ?_⟩
    exact max_le (le_trans hle (le_trans hmono (by norm_num)))
      (by norm_num [MIN_BATCH_SIZE])
  · exact ⟨h1, h2⟩

theorem foldl_adjust_mem :
    ∀ (ts : List ℚ) (bs : Nat), MIN_BATCH_SIZE ≤ bs → bs ≤ MAX_BATCH_SIZE →
    MIN_BATCH_SIZE ≤ ts.foldl adjust_batch_size bs ∧
    ts.foldl adjust_batch_size bs ≤ MAX_BATCH_SIZE := by
  intro ts
  induction ts with
  | nil => intro bs h1 h2; exact ⟨h1, h2⟩
  | cons t ts ih =>
    intro bs h1 h2
    have h := adjust_batch_size_mem bs h1 h2 t
    exact ih _ h.1 h.2

theorem process_cmd_batch_size {σ : Type} (env : AelysEnv σ)
    (s : RngWorkerState σ) (c : RngCmd)
    (h1 : MIN_BATCH_SIZE ≤ s.batch_size) (h2 : s.batch_size ≤ MAX_BATCH_SIZE) :
    MIN_BATCH_SIZE ≤ (process_cmd env s c).batch_size ∧
    (process_cmd env s c).batch_size ≤ MAX_BATCH_SIZE := by
  cases c with
  | updateCode code =>
    rcases hc : compile_rng env code with e | ⟨vm, func⟩
    · simp only [process_cmd, hc]
      exact ⟨h1, h2⟩
    · simp only [process_cmd, hc]
      exact ⟨by norm_num [MIN_BATCH_SIZE], by norm_num [MAX_BATCH_SIZE]⟩
  | stop => exact ⟨h1, h2⟩
  | reset =>
    exact ⟨by simp [process_cmd, MIN_BATCH_SIZE],
           by simp [process_cmd, MAX_BATCH_SIZE]⟩
  | setSeed v => exact ⟨h1, h2⟩
  | pause => exact ⟨h1, h2⟩
  | resume => exact ⟨h1, h2⟩

theorem process_cmds_batch_size {σ : Type} (env : AelysEnv σ) :
    ∀ (cs : List RngCmd) (s : RngWorkerState σ),
    MIN_BATCH_SIZE ≤ s.batch_size → s.batch_size ≤ MAX_BATCH_SIZE →
    MIN_BATCH_SIZE ≤ (process_cmds env s cs).1.batch_size ∧
    (process_cmds env s cs).1.batch_size ≤ MAX_BATCH_SIZE := by
  intro cs
  induction cs with
  | nil => intro s h1 h2; exact ⟨h1, h2⟩
  | cons c cs ih =>
    intro s h1 h2
    cases c with
    | stop => exact ⟨h1, h2⟩
    | updateCode code =>
      have h := process_cmd_batch_size env s (.updateCode code) h1 h2
      exact ih _ h.1 h.2
    | reset =>
      have h := process_cmd_batch_size env s .reset h1 h2
      exact ih _ h.1 h.2
    | setSeed v =>
      have h := process_cmd_batch_size env s (.setSeed v) h1 h2
      exact ih _ h.1 h.2
    | pause =>
      have h := process_cmd_batch_size env s .pause h1 h2
      exact ih _ h.1 h.2
    | resume =>
      have h := process_cmd_batch_size env s .resume h1 h2
      exact ih _ h.1 h.2

theorem rng_thread_run_batch_size {σ : Type} (env : AelysEnv σ) :
    ∀ (inputs : List LoopInput) (s : RngWorkerState σ),
    MIN_BATCH_SIZE ≤ s.batch_size → s.batch_size ≤ MAX_BATCH_SIZE →
    MIN_BATCH_SIZE ≤ (rng_thread_run env s inputs).1.batch_size ∧
    (rng_thread_run env s inputs).1.batch_size ≤ MAX_BATCH_SIZE := by
  intro inputs
  induction inputs with
  | nil => intro s h1 h2; exact ⟨h1, h2⟩
  | cons inp rest ih =>
    intro s h1 h2
    have hpcs := process_cmds_batch_size env inp.cmds s h1 h2
    simp only [rng_thread_run]
    rcases hpc : process_cmds env s inp.cmds with ⟨s1, stopped⟩
    rw [hpc] at hpcs
    cases stopped with
    | true => exact hpcs
    | false =>
      simp only
      split
      · exact ih s1 hpcs.1 hpcs.2
      · split
        · rename_i vm func hvm hfunc
          rcases hb : rng_batch_loop func vm s1.current_state inp.bounds s1.batch_size with ⟨vm', l, res⟩
          cases res with
          | error e =>
            simp only
            exact ih _ hpcs.1 hpcs.2
          | ok finalState =>
            simp only
            have hadj := adjust_batch_size_mem s1.batch_size hpcs.1 hpcs.2 inp.elapsed_ms
            have hih := ih { s1 with vm := some vm', current_state := finalState, batch_size := adjust_batch_size s1.batch_size inp.elapsed_ms } hadj.1 hadj.2
            rcases hrec : rng_thread_run env { s1 with vm := some vm', current_state := finalState, batch_size := adjust_batch_size s1.batch_size inp.elapsed_ms } rest with ⟨sf, batches⟩
            rw [hrec] at hih
            exact hih
        · exact ih s1 hpcs.1 hpcs.2

/-- Claim C6: for any sequence of measured batch latencies the adaptive
batch size, starting from its initial value 10000, always remains within
`[MIN_BATCH_SIZE, MAX_BATCH_SIZE] = [1000, 500000]` (it grows via the `f32`
multiply-by-1.2 capped at the maximum below 80% of the 5 ms target, shrinks
via multiply-by-0.8 floored at the minimum above 120%, and holds steady
otherwise — the update rule embedded as `adjust_batch_size`); moreover the
full worker loop, whatever commands and batches it processes, keeps
`batch_size` inside the same interval. -/
theorem theorem_c6 :
    (∀ ts : List ℚ, MIN_BATCH_SIZE ≤ ts.foldl adjust_batch_size 10000 ∧
      ts.foldl adjust_batch_size 10000 ≤ MAX_BATCH_SIZE) ∧
    (∀ (σ : Type) (env : AelysEnv σ) (s : RngWorkerState σ)
      (inputs : List LoopInput),
      MIN_BATCH_SIZE ≤ s.batch_size → s.batch_size ≤ MAX_BATCH_SIZE →
      MIN_BATCH_SIZE ≤ (rng_thread_run env s inputs).1.batch_size ∧
      (rng_thread_run env s inputs).1.batch_size ≤ MAX_BATCH_SIZE) :=
  ⟨fun ts => foldl_adjust_mem ts 10000 (by norm_num [MIN_BATCH_SIZE])
      (by norm_num [MAX_BATCH_SIZE]),
   fun σ env s inputs h1 h2 => rng_thread_run_batch_size env inputs s h1 h2⟩

/-- Witness for `theorem_c6`: the worker invariant applied to the initial
worker state and an empty input list. -/
theorem theorem_c6_witness :
    MIN_BATCH_SIZE ≤ (rng_thread_run
        ⟨.ok (), fun vm _ _ => (vm, .ok ()), fun _ _ => .error "none"⟩
        (initRngWorkerState Unit) []).1.batch_size ∧
    (rng_thread_run
        ⟨.ok (), fun vm _ _ => (vm, .ok ()), fun _ _ => .error "none"⟩
        (initRngWorkerState Unit) []).1.batch_size ≤ MAX_BATCH_SIZE :=
  theorem_c6.2 Unit _ _ []
    (by norm_num [initRngWorkerState, MIN_BATCH_SIZE])
    (by norm_num [initRngWorkerState, MAX_BATCH_SIZE])

/-! ### Claim C8: surface index buffer size and bounds -/

theorem flatMap_range_const_length {α : Type} (f : Nat → List α) (c : Nat)
    (hf : ∀ i, (f i).length = c) :
    ∀ m : Nat, ((List.range m).flatMap f).length = c * m := by
  intro m
  induction m with
  | zero => simp
  | succ k ih =>
    rw [List.range_succ, List.flatMap_append, List.length_append, ih]
    simp [hf, Nat.mul_succ]

theorem surface_indices_length (res : Nat) :
    (surface_indices res).length = 6 * (res - 1) ^ 2 := by
  have h : (surface_indices res).length = 6 * (res - 1) * (res - 1) := by
    unfold surface_indices
    apply flatMap_range_const_length
    intro i
    apply flatMap_range_const_length
    intro j
    rfl
  rw [h]
  ring

theorem surface_indices_lt (res : Nat) (hres : 1 ≤ res) :
    ∀ idx ∈ surface_indices res, idx < res * res := by
  intro idx h
  unfold surface_indices at h
  rw [List.mem_flatMap] at h
  obtain ⟨i, hi, h⟩ := h
  rw [List.mem_flatMap] at h
  obtain ⟨j, hj, h⟩ := h
  rw [List.mem_range] at hi hj
  have hi2 : i + 2 ≤ res := by omega
  have hj2 : j + 2 ≤ res := by omega
  have hb : (i + 1) * res + j + 1 < res * res := by nlinarith
  simp only [List.mem_cons, List.not_mem_nil, or_false] at h
  rcases h with rfl | rfl | rfl | rfl | rfl | rfl <;>
    exact lt_of_le_of_lt (Nat.mod_le _ _) (by nlinarith)

theorem compile_and_sample_surface_indices {σ : Type} (env : AelysEnv σ)
    (sqrtf : ℚ → ℚ) (code : String) (xr yr : ℚ × ℚ) (res : Nat)
    (m : SurfaceMesh)
    (h : compile_and_sample_surface env sqrtf code xr yr res = .ok m) :
    m.mesh.indices = surface_indices res := by
  unfold compile_and_sample_surface at h
  split at h
  · simp at h
  · dsimp only at h
    split at h
    · simp at h
    · split at h
      · simp at h
      · split at h
        · simp at h
        · split at h
          · simp at h
          · simp only [Except.ok.injEq] at h
            rw [← h]

/-- Claim C8: for every surface grid of resolution `R ≥ 2`, whenever the
surface command succeeds its index buffer holds exactly `6*(R-1)^2` entries
and every entry lies in `[0, R*R)` (within `[0, vertex_count)`). -/
theorem theorem_c8 (σ : Type) (env : AelysEnv σ) (sqrtf : ℚ → ℚ)
    (code : String) (xr yr : ℚ × ℚ) (resolution : Nat) (mesh : SurfaceMesh)
    (hres : 2 ≤ resolution)
    (h : compile_and_sample_surface env sqrtf code xr yr resolution
      = .ok mesh) :
    mesh.mesh.indices.length = 6 * (resolution - 1) ^ 2 ∧
    ∀ idx ∈ mesh.mesh.indices, idx < resolution * resolution := by
  rw [compile_and_sample_surface_indices env sqrtf code xr yr resolution
    mesh h]
  exact ⟨surface_indices_length _, surface_indices_lt _ (by omega)⟩

/-- An evaluator model whose compiled program exposes every function with
arity 2, always returning the float 0; used to evaluate the mesh pipelines
on concrete inputs. -/
def constZeroEnv : AelysEnv Unit :=
  ⟨.ok (), fun vm _ _ => (vm, .ok ()),
   fun _ _ => .ok ⟨2, fun vm _ => (vm, .ok (.float 0))⟩⟩

/-- The surface mesh produced by the constant-zero evaluator at
resolution 2. -/
def surfMesh2 : SurfaceMesh :=
  ((compile_and_sample_surface constZeroEnv id "z" (0, 1) (0, 1) 2
    ).toOption).getD ⟨⟨[], [], []⟩, 0, 0⟩

/-- Witness for `theorem_c8` at resolution 2 with the constant-zero
evaluator. -/
theorem theorem_c8_witness :
    surfMesh2.mesh.indices.length = 6 * (2 - 1) ^ 2 ∧
    ∀ idx ∈ surfMesh2.mesh.indices, idx < 2 * 2 :=
  theorem_c8 Unit constZeroEnv id "z" (0, 1) (0, 1) 2 surfMesh2
    (by norm_num) (by rfl)

/-! ### Claim C2: arity validation before sampling -/

/-- Claim C2, counterexample: the parametric-curve path performs no arity
validation.  With a compiled program whose `fx`, `fy`, `fz` all have
arity 2 (required: 1 each) and an evaluator whose calls succeed, the curve
command does not fail at all — it samples and returns a mesh, contradicting
"the command fails without calling any of those functions". -/
theorem theorem_c2_counterexample :
    (compile_and_sample_parametric constZeroEnv "c" (0, 1) 2).isOk = true ∧
    (match constZeroEnv.get_function () "fx" with
      | .ok f => f.arity
      | .error _ => 0) = 2 := by
  constructor
  · rfl
  · rfl

/-- Claim C2, amended: the surface command rejects `f` of arity other
than 2, and the parametric-surface command rejects `fx`, `fy`, `fz` of
arity other than 2, each before any sampling — the resulting error is the
arity message and is independent of the functions' call behaviour (the
conclusion holds for every evaluator exposing those arities, so no sample
call can have been consulted).  The parametric-curve command, by contrast,
performs no arity validation; a wrong arity there surfaces only if the
evaluator itself fails the calls during sampling. -/
theorem theorem_c2_amended :
    (∀ (σ : Type) (env : AelysEnv σ) (sqrtf : ℚ → ℚ) (code : String)
      (xr yr : ℚ × ℚ) (res : Nat) (vm0 vm1 : σ) (u : Unit)
      (fn : AelysFunc σ),
      env.new_vm = .ok vm0 →
      env.run_with_vm vm0 ("needs std.math;\n" ++ code) "math_surface"
        = (vm1, .ok u) →
      env.get_function vm1 "f" = .ok fn → fn.arity ≠ 2 →
      compile_and_sample_surface env sqrtf code xr yr res
        = .error ("Function \x27f\x27 must take 2 arguments (x, y), got "
          ++ toString fn.arity)) ∧
    (∀ (σ : Type) (env : AelysEnv σ) (sqrtf : ℚ → ℚ) (code : String)
      (ur vr : ℚ × ℚ) (us vs : Nat) (vm0 vm1 : σ) (u : Unit)
      (fx fy fz : AelysFunc σ),
      env.new_vm = .ok vm0 →
      env.run_with_vm vm0 ("needs std.math;\n" ++ code)
        "math_parametric_surface" = (vm1, .ok u) →
      env.get_function vm1 "fx" = .ok fx →
      env.get_function vm1 "fy" = .ok fy →
      env.get_function vm1 "fz" = .ok fz →
      (fx.arity ≠ 2 ∨ fy.arity ≠ 2 ∨ fz.arity ≠ 2) →
      compile_and_sample_parametric_surface env sqrtf code ur vr us vs
        = .error "Functions fx, fy, fz must each take 2 arguments (u, v)") := by
  constructor
  · intro σ env sqrtf code xr yr res vm0 vm1 u fn h1 h2 h3 h4
    simp only [compile_and_sample_surface, h1, h2, h3]
    rw [if_pos h4]
  · intro σ env sqrtf code ur vr us vs vm0 vm1 u fx fy fz h1 h2 h3 h4 h5 h6
    simp only [compile_and_sample_parametric_surface, h1, h2, h3, h4, h5]
    rw [if_pos h6]

/-- An evaluator model whose compiled program exposes every function with
arity 1. -/
def arityOneEnv : AelysEnv Unit :=
  ⟨.ok (), fun vm _ _ => (vm, .ok ()),
   fun _ _ => .ok ⟨1, fun vm _ => (vm, .ok (.float 0))⟩⟩

/-- Witness for `theorem_c2_amended`: an arity-1 `f` makes the surface
command fail with the arity message. -/
theorem theorem_c2_amended_witness :
    compile_and_sample_surface arityOneEnv id "c" (0, 1) (0, 1) 2
      = .error "Function \x27f\x27 must take 2 arguments (x, y), got 1" := by
  have h := theorem_c2_amended.1 Unit arityOneEnv id "c" (0, 1) (0, 1) 2 () ()
    () ⟨1, fun vm _ => (vm, .ok (.float 0))⟩ rfl rfl rfl (by decide)
  exact h.trans (by rfl)

/-! ### Claim C3: a runtime evaluation error halts generation -/

/-- No command in the given loop inputs is an `UpdateCode` whose
compilation succeeds. -/
def NoSuccessfulUpdate {σ : Type} (env : AelysEnv σ)
    (inputs : List LoopInput) : Prop :=
  ∀ inp ∈ inputs, ∀ cmd ∈ inp.cmds, ∀ code : String,
    cmd = .updateCode code → ∀ vmf, compile_rng env code ≠ .ok vmf

theorem process_cmd_not_running {σ : Type} (env : AelysEnv σ)
    (s : RngWorkerState σ) (c : RngCmd) (hs : s.running = false)
    (hc : ∀ code : String, c = .updateCode code →
      ∀ vmf, compile_rng env code ≠ .ok vmf) :
    (process_cmd env s c).running = false := by
  cases c with
  | updateCode code =>
    rcases hcr : compile_rng env code with e | vmf
    · simp [process_cmd, hcr]
    · exact absurd hcr (hc code rfl vmf)
  | stop => exact hs
  | reset => exact hs
  | setSeed v => exact hs
  | pause => exact hs
  | resume => exact hs

theorem process_cmds_not_running {σ : Type} (env : AelysEnv σ) :
    ∀ (cs : List RngCmd) (s : RngWorkerState σ), s.running = false →
    (∀ cmd ∈ cs, ∀ code : String, cmd = .updateCode code →
      ∀ vmf, compile_rng env code ≠ .ok vmf) →
    (process_cmds env s cs).1.running = false := by
  intro cs
  induction cs with
  | nil => intro s hs _; exact hs
  | cons c cs ih =>
    intro s hs hc
    have hhead : ∀ code : String, c = .updateCode code →
        ∀ vmf, compile_rng env code ≠ .ok vmf :=
      fun code heq => hc c (List.mem_cons_self c cs) code heq
    have htail : ∀ cmd ∈ cs, ∀ code : String, cmd = .updateCode code →
        ∀ vmf, compile_rng env code ≠ .ok vmf :=
      fun cmd hm => hc cmd (List.mem_cons_of_mem c hm)
    cases c with
    | stop => exact hs
    | updateCode code =>
      exact ih _ (process_cmd_not_running env s _ hs hhead) htail
    | reset => exact ih _ (process_cmd_not_running env s _ hs hhead) htail
    | setSeed v => exact ih _ (process_cmd_not_running env s _ hs hhead) htail
    | pause => exact ih _ (process_cmd_not_running env s _ hs hhead) htail
    | resume => exact ih _ (process_cmd_not_running env s _ hs hhead) htail

theorem rng_thread_run_no_batches {σ : Type} (env : AelysEnv σ) :
    ∀ (inputs : List LoopInput) (s : RngWorkerState σ), s.running = false →
    NoSuccessfulUpdate env inputs →
    (rng_thread_run env s inputs).2 = [] ∧
    (rng_thread_run env s inputs).1.running = false := by
  intro inputs
  induction inputs with
  | nil => intro s hs _; exact ⟨rfl, hs⟩
  | cons inp rest ih =>
    intro s hs hns
    have hhead := hns inp (List.mem_cons_self inp rest)
    have htail : NoSuccessfulUpdate env rest :=
      fun i hm => hns i (List.mem_cons_of_mem inp hm)
    simp only [rng_thread_run]
    rcases hpc : process_cmds env s inp.cmds with ⟨s1, stopped⟩
    have hs1 : s1.running = false := by
      have h := process_cmds_not_running env inp.cmds s hs hhead
      rw [hpc] at h
      exact h
    cases stopped with
    | true => exact ⟨rfl, hs1⟩
    | false =>
      simp only
      rw [if_pos (Or.inl hs1)]
      exact ih s1 hs1 htail

/-- Claim C3: when a call fails mid-batch, the in-progress batch is
discarded (never delivered), `last_error` is set to the evaluator's message
(non-empty whenever that message is), `current_state` keeps its pre-batch
value, the worker leaves `Running`, and — as long as no subsequent
successful `UpdateCode` arrives (`Reset` and `SetSeed` included) — the run
produces no further batches and stays out of `Running`. -/
theorem theorem_c3 (σ : Type) (env : AelysEnv σ) (s : RngWorkerState σ)
    (inp : LoopInput) (rest : List LoopInput) (vm vm' : σ) (func : RngFn σ)
    (partialBatch : List Int) (e : String)
    (hrun : s.running = true) (hp : inp.paused = false)
    (hvm : s.vm = some vm) (hf : s.rng_func = some func)
    (hcmds : inp.cmds = [])
    (hbatch : rng_batch_loop func vm s.current_state inp.bounds s.batch_size
      = (vm', partialBatch, .error e))
    (hne : e ≠ "") (hns : NoSuccessfulUpdate env rest) :
    rng_thread_run env s (inp :: rest)
      = rng_thread_run env { s with vm := some vm', running := false, last_error := some e } rest ∧
    (rng_thread_run env s (inp :: rest)).2 = [] ∧
    (rng_thread_run env s (inp :: rest)).1.running = false ∧
    ({ s with vm := some vm', running := false, last_error := some e } : RngWorkerState σ).last_error = some e ∧
    e ≠ "" ∧
    ({ s with vm := some vm', running := false, last_error := some e } : RngWorkerState σ).current_state = s.current_state := by
  have hstep : rng_thread_run env s (inp :: rest)
      = rng_thread_run env { s with vm := some vm', running := false, last_error := some e } rest := by
    simp only [rng_thread_run, hcmds, process_cmds]
    rw [if_neg (by simp [hrun, hp])]
    simp only [hvm, hf, hbatch]
  have hrest := rng_thread_run_no_batches env rest
    { s with vm := some vm', running := false, last_error := some e } rfl hns
  refine ⟨hstep, ?_, ?_, rfl, hne, rfl⟩
  · rw [hstep]
    exact hrest.1
  · rw [hstep]
    exact hrest.2

/-- A callable whose every invocation reports a runtime error. -/
def failFn : RngFn Unit := fun vm _ => (vm, .error "runtime error: boom")

/-- A trivial evaluator environment on which compilation never yields a
function. -/
def trivialEnv : AelysEnv Unit :=
  ⟨.ok (), fun vm _ _ => (vm, .ok ()), fun _ _ => .error "no function"⟩

/-- A worker state running `failFn` with seed 5 and batch size 3. -/
def failState : RngWorkerState Unit := ⟨some (), some failFn, .int 5, 3, true, none⟩

/-- A loop iteration with no commands, not paused. -/
def failInp : LoopInput := ⟨[], false, defaultBounds, 5⟩

/-- Follow-up iterations issuing only `Reset` and `SetSeed`. -/
def failRest : List LoopInput := [⟨[.reset, .setSeed 7], false, defaultBounds, 5⟩]

/-- Witness for `theorem_c3`: the worker whose function always fails emits
no batch, and `Reset`/`SetSeed` afterwards do not resume generation. -/
theorem theorem_c3_witness :
    (rng_thread_run trivialEnv failState (failInp :: failRest)).2 = [] ∧
    (rng_thread_run trivialEnv failState (failInp :: failRest)).1.running
      = false := by
  have hns : NoSuccessfulUpdate trivialEnv failRest := by
    intro i hi cmd hc code heq vmf
    simp only [failRest, List.mem_singleton] at hi
    subst hi
    simp only [List.mem_cons, List.not_mem_nil, or_false] at hc
    rcases hc with rfl | rfl
    · exact absurd heq (by simp)
    · exact absurd heq (by simp)
  have h := theorem_c3 Unit trivialEnv failState failInp failRest () () failFn
    [] "runtime error: boom" rfl rfl rfl rfl rfl rfl (by decide) hns
  exact ⟨h.2.1, h.2.2.1⟩

/-! ### Claim C9: determinism of the generation worker -/

/-- A callable that never reports an error. -/
def TotalFn {σ : Type} (f : RngFn σ) : Prop :=
  ∀ vm args, ∃ v, (f vm args).2 = .ok v

theorem rng_batch_loop_total_ok {σ : Type} (f : RngFn σ) (hf : TotalFn f) :
    ∀ (n : Nat) (vm : σ) (st : AelysValue) (b : RngBounds),
    ∃ vm1 l st1, rng_batch_loop f vm st b n = (vm1, l, .ok st1) ∧
      l.length = 3 * n := by
  intro n
  induction n with
  | zero => intro vm st b; exact ⟨vm, [], st, rfl, rfl⟩
  | succ k ih =>
    intro vm st b
    obtain ⟨v1, hv1⟩ := hf vm [st]
    rcases hc1 : f vm [st] with ⟨vmA, r1⟩
    rw [hc1] at hv1
    simp only at hv1
    subst hv1
    obtain ⟨v2, hv2⟩ := hf vmA [v1]
    rcases hc2 : f vmA [v1] with ⟨vmB, r2⟩
    rw [hc2] at hv2
    simp only at hv2
    subst hv2
    obtain ⟨v3, hv3⟩ := hf vmB [v2]
    rcases hc3 : f vmB [v2] with ⟨vmC, r3⟩
    rw [hc3] at hv3
    simp only at hv3
    subst hv3
    obtain ⟨vm1, l, st1, hl, hlen⟩ := ih vmC v3 b
    refine ⟨vm1,
      normalize_value ((as_int v1).getD 0) b.min_x b.max_x
        :: normalize_value ((as_int v2).getD 0) b.min_y b.max_y
        :: normalize_value ((as_int v3).getD 0) b.min_z b.max_z :: l,
      st1, ?_, ?_⟩
    · simp only [rng_batch_loop, hc1, hc2, hc3, hl]
    · simp only [List.length_cons, hlen]
      ring

theorem rng_batch_loop_append {σ : Type} (f : RngFn σ) (hf : TotalFn f) :
    ∀ (m n : Nat) (vm : σ) (st : AelysValue) (b : RngBounds)
      (vm1 : σ) (l1 : List Int) (st1 : AelysValue),
    rng_batch_loop f vm st b m = (vm1, l1, .ok st1) →
    rng_batch_loop f vm st b (m + n)
      = ((rng_batch_loop f vm1 st1 b n).1,
         l1 ++ (rng_batch_loop f vm1 st1 b n).2.1,
         (rng_batch_loop f vm1 st1 b n).2.2) := by
  intro m
  induction m with
  | zero =>
    intro n vm st b vm1 l1 st1 h
    simp only [rng_batch_loop, Prod.mk.injEq, Except.ok.injEq] at h
    obtain ⟨rfl, rfl, rfl⟩ := h
    rw [Nat.zero_add]
    simp
  | succ k ih =>
    intro n vm st b vm1 l1 st1 h
    obtain ⟨v1, hv1⟩ := hf vm [st]
    rcases hc1 : f vm [st] with ⟨vmA, r1⟩
    rw [hc1] at hv1
    simp only at hv1
    subst hv1
    obtain ⟨v2, hv2⟩ := hf vmA [v1]
    rcases hc2 : f vmA [v1] with ⟨vmB, r2⟩
    rw [hc2] at hv2
    simp only at hv2
    subst hv2
    obtain ⟨v3, hv3⟩ := hf vmB [v2]
    rcases hc3 : f vmB [v2] with ⟨vmC, r3⟩
    rw [hc3] at hv3
    simp only at hv3
    subst hv3
    rcases hk : rng_batch_loop f vmC v3 b k with ⟨vmk, lk, resk⟩
    simp only [rng_batch_loop, hc1, hc2, hc3, hk, Prod.mk.injEq] at h
    obtain ⟨rfl, rfl, hres⟩ := h
    have hkk : rng_batch_loop f vmC v3 b k = (vmk, lk, .ok st1) := by
      rw [hk, hres]
    have hih := ih n vmC v3 b vmk lk st1 hkk
    have harith : k + 1 + n = (k + n) + 1 := by omega
    rw [harith]
    simp only [rng_batch_loop, hc1, hc2, hc3, hih]
    simp

theorem rng_batch_loop_points_mono {σ : Type} (f : RngFn σ)
    (hf : TotalFn f) (m n : Nat) (h : m ≤ n) (vm : σ) (st : AelysValue)
    (b : RngBounds) :
    ∃ t, (rng_batch_loop f vm st b n).2.1
      = (rng_batch_loop f vm st b m).2.1 ++ t := by
  obtain ⟨vm1, l1, st1, hl, _⟩ := rng_batch_loop_total_ok f hf m vm st b
  obtain ⟨k, rfl⟩ : ∃ k, n = m + k := ⟨n - m, by omega⟩
  rw [rng_batch_loop_append f hf m k vm st b vm1 l1 st1 hl, hl]
  exact ⟨_, rfl⟩

/-- The total number of three-call iterations a run performs, as a function
of the starting batch size and the pause flags and measured latencies of
the loop iterations. -/
def totalIters (bs : Nat) : List LoopInput → Nat
  | [] => 0
  | inp :: rest =>
    if inp.paused then totalIters bs rest
    else bs + totalIters (adjust_batch_size bs inp.elapsed_ms) rest

theorem rng_thread_run_flatten {σ : Type} (env : AelysEnv σ) (f : RngFn σ)
    (hf : TotalFn f) (b : RngBounds) :
    ∀ (inputs : List LoopInput) (s : RngWorkerState σ) (vm : σ),
    (∀ inp ∈ inputs, inp.cmds = [] ∧ inp.bounds = b) →
    s.running = true → s.vm = some vm → s.rng_func = some f →
    ((rng_thread_run env s inputs).2).flatten
      = (rng_batch_loop f vm s.current_state b
          (totalIters s.batch_size inputs)).2.1 := by
  intro inputs
  induction inputs with
  | nil =>
    intro s vm _ _ _ _
    simp [rng_thread_run, totalIters, rng_batch_loop]
  | cons inp rest ih =>
    intro s vm hins hrun hvm hfn
    have hinp := hins inp (List.mem_cons_self inp rest)
    have hrest : ∀ i ∈ rest, i.cmds = [] ∧ i.bounds = b :=
      fun i hm => hins i (List.mem_cons_of_mem inp hm)
    simp only [rng_thread_run, hinp.1, process_cmds]
    by_cases hpause : inp.paused = true
    · rw [if_pos (Or.inr hpause)]
      rw [ih s vm hrest hrun hvm hfn]
      simp only [totalIters, hpause, if_pos]
    · rw [if_neg (by simp [hrun, hpause])]
      obtain ⟨vm1, l1, st1, hl, hlen⟩ := rng_batch_loop_total_ok f hf
        s.batch_size vm s.current_state b
      rw [hinp.2]
      simp only [hvm, hfn, hl]
      have hih := ih { s with vm := some vm1, rng_func := some f, current_state := st1, batch_size := adjust_batch_size s.batch_size inp.elapsed_ms } vm1 hrest hrun rfl rfl
      simp only at hih
      rw [List.flatten_cons, hih]
      have happend := rng_batch_loop_append f hf s.batch_size
        (totalIters (adjust_batch_size s.batch_size inp.elapsed_ms) rest)
        vm s.current_state b vm1 l1 st1 hl
      simp only [totalIters]
      rw [if_neg hpause, happend]

/-- Claim C9, amended: the produced batch sequence is a deterministic
function of the compiled recurrence, the worker state (seed, batch size),
and the per-iteration inputs — commands, pause flag, bounds snapshot AND
measured batch latency.  Two runs identical in all of these produce
identical batch sequences.  If only the measured latencies differ (the part
the claim omits), the runs still produce the same points in the same order
— one run's flattened point stream is a prefix of the other's — but the
partition into batches can differ, because the adaptive batch size follows
the measured latencies. -/
theorem theorem_c9 :
    (∀ (σ : Type) (env : AelysEnv σ) (s : RngWorkerState σ)
      (inputs1 inputs2 : List LoopInput), inputs1 = inputs2 →
      rng_thread_run env s inputs1 = rng_thread_run env s inputs2) ∧
    (∀ (σ : Type) (env : AelysEnv σ) (f : RngFn σ) (b : RngBounds)
      (s : RngWorkerState σ) (vm : σ) (inputs1 inputs2 : List LoopInput),
      TotalFn f →
      (∀ inp ∈ inputs1, inp.cmds = [] ∧ inp.bounds = b) →
      (∀ inp ∈ inputs2, inp.cmds = [] ∧ inp.bounds = b) →
      s.running = true → s.vm = some vm → s.rng_func = some f →
      (∃ t, ((rng_thread_run env s inputs2).2).flatten
          = ((rng_thread_run env s inputs1).2).flatten ++ t) ∨
      (∃ t, ((rng_thread_run env s inputs1).2).flatten
          = ((rng_thread_run env s inputs2).2).flatten ++ t)) := by
  constructor
  · intro σ env s i1 i2 h
    rw [h]
  · intro σ env f b s vm i1 i2 hf h1 h2 hrun hvm hfn
    rw [rng_thread_run_flatten env f hf b i1 s vm h1 hrun hvm hfn,
        rng_thread_run_flatten env f hf b i2 s vm h2 hrun hvm hfn]
    rcases le_total (totalIters s.batch_size i1) (totalIters s.batch_size i2)
      with h | h
    · exact Or.inl (rng_batch_loop_points_mono f hf _ _ h vm s.current_state b)
    · exact Or.inr (rng_batch_loop_points_mono f hf _ _ h vm s.current_state b)

/-- A callable that always succeeds with the integer 1. -/
def constOneFn : RngFn Unit := fun vm _ => (vm, .ok (.int 1))

/-- A worker state running `constOneFn` from seed 0 at the initial batch
size 10000. -/
def runStateC9 : RngWorkerState Unit := ⟨some (), some constOneFn, .int 0, 10000, true, none⟩

/-- Two loop iterations whose batches measure 1 ms each (below 80% of
target, so the batch size grows). -/
def inputsFast : List LoopInput := [⟨[], false, defaultBounds, 1⟩, ⟨[], false, defaultBounds, 1⟩]

/-- Two loop iterations whose batches measure 5 ms each (inside the hold
band, so the batch size stays). -/
def inputsSlow : List LoopInput := [⟨[], false, defaultBounds, 5⟩, ⟨[], false, defaultBounds, 5⟩]

/-- Claim C9, counterexample: two runs with the identical compiled
recurrence (`constOneFn`), identical seed (0), identical bounds and
identical pause schedule (never paused), differing only in the measured
wall-clock batch times, produce different batch sequences: the fast run
grows its second batch to 12000 points, the slow run keeps 10000. -/
theorem theorem_c9_counterexample :
    (rng_thread_run trivialEnv runStateC9 inputsFast).2
      ≠ (rng_thread_run trivialEnv runStateC9 inputsSlow).2 := by
  have hf : TotalFn constOneFn := fun vm args => ⟨.int 1, rfl⟩
  intro heq
  have h1 := rng_thread_run_flatten trivialEnv constOneFn hf defaultBounds
    inputsFast runStateC9 ()
    (by intro i hi; fin_cases hi <;> exact ⟨rfl, rfl⟩) rfl rfl rfl
  have h2 := rng_thread_run_flatten trivialEnv constOneFn hf defaultBounds
    inputsSlow runStateC9 ()
    (by intro i hi; fin_cases hi <;> exact ⟨rfl, rfl⟩) rfl rfl rfl
  have htf : totalIters runStateC9.batch_size inputsFast = 22000 := by decide
  have hts : totalIters runStateC9.batch_size inputsSlow = 20000 := by decide
  rw [htf] at h1
  rw [hts] at h2
  obtain ⟨vmf, lf, stf, hlf, hlenf⟩ := rng_batch_loop_total_ok constOneFn hf
    22000 () runStateC9.current_state defaultBounds
  obtain ⟨vms, ls, sts, hls, hlens⟩ := rng_batch_loop_total_ok constOneFn hf
    20000 () runStateC9.current_state defaultBounds
  rw [hlf] at h1
  rw [hls] at h2
  rw [heq] at h1
  rw [h2] at h1
  simp only at h1
  have hll : ls.length = lf.length := by rw [h1]
  rw [hlenf, hlens] at hll
  omega

/-- Witness for `theorem_c9`: the prefix property applied to the fast and
slow runs. -/
theorem theorem_c9_witness :
    (∃ t, ((rng_thread_run trivialEnv runStateC9 inputsSlow).2).flatten
        = ((rng_thread_run trivialEnv runStateC9 inputsFast).2).flatten ++ t)
    ∨
    (∃ t, ((rng_thread_run trivialEnv runStateC9 inputsFast).2).flatten
        = ((rng_thread_run trivialEnv runStateC9 inputsSlow).2).flatten
          ++ t) :=
  theorem_c9.2 Unit trivialEnv constOneFn defaultBounds runStateC9 ()
    inputsFast inputsSlow (fun vm args => ⟨.int 1, rfl⟩)
    (by intro i hi; fin_cases hi <;> exact ⟨rfl, rfl⟩)
    (by intro i hi; fin_cases hi <;> exact ⟨rfl, rfl⟩) rfl rfl rfl

end Prng3d
